import Mathlib

/-!
Verification of the curve model parameter framework of `src/ec/src/models/mod.rs`:
the `ModelParameters` / `SWModelParameters` / `TEModelParameters` /
`MontgomeryModelParameters` trait hierarchy, its default coefficient operators
(`mul_by_a`, `add_b`), the default subgroup verifier
(`is_in_correct_subgroup_assuming_on_curve`) and the Twisted-Edwards /
Montgomery associated-type linkage.

The base field (Rust bound `Field + SquareRootField`) is embedded as a Lean
type `F` with `[Field F]` and `[DecidableEq F]` (the `is_zero` method of the
external field engine tests equality with the canonical zero).  The scalar
field is embedded by its carrier type `S` together with its characteristic,
a natural number (the Rust side obtains it as `ScalarField::characteristic()`,
a big-endian limb sequence; we keep the abstract integer and produce its
most-significant-bit-first bit expansion with `bitsBE`).
-/

/-- Little-endian (least-significant-bit-first) bit expansion of a natural
number, with no trailing zeros. -/
def bitsLE (n : Nat) : List Bool :=
  if h : n = 0 then []
  else decide (n % 2 = 1) :: bitsLE (n / 2)
decreasing_by exact Nat.div_lt_self (Nat.pos_of_ne_zero h) (by decide)

/-- Most-significant-bit-first (big-endian) bit expansion of a natural number.
This is the bit order produced by `BitIteratorBE::new(characteristic())` in the
source (the iterator also yields leading zero bits of the top limb; those do
not change the value the bits denote, and `bitsBE` omits them). -/
def bitsBE (n : Nat) : List Bool := (bitsLE n).reverse

/-- Value denoted by a little-endian bit list. -/
def valLE : List Bool → Nat
  | [] => 0
  | b :: bs => (cond b 1 0) + 2 * valLE bs

/-- Value denoted by a big-endian (most-significant-bit-first) bit list. -/
def valBE : List Bool → Nat
  | [] => 0
  | b :: bs => (cond b 1 0) * 2 ^ bs.length + valBE bs

theorem valLE_bitsLE (n : Nat) : valLE (bitsLE n) = n := by
  induction n using Nat.strong_induction_on with
  | _ n ih =>
    by_cases h : n = 0
    · subst h; simp [bitsLE, valLE]
    · rw [bitsLE]
      simp only [h, dite_false]
      rw [valLE, ih (n / 2) (Nat.div_lt_self (Nat.pos_of_ne_zero h) (by decide))]
      rcases Nat.mod_two_eq_zero_or_one n with h2 | h2 <;> simp [h2] <;> omega

theorem valBE_append_singleton (l : List Bool) (b : Bool) :
    valBE (l ++ [b]) = 2 * valBE l + cond b 1 0 := by
  induction l with
  | nil => cases b <;> simp [valBE]
  | cons x xs ih =>
    simp only [List.cons_append, valBE, List.length_append, List.length_cons,
      List.length_nil]
    cases x <;> simp [pow_succ] <;> omega

theorem valBE_reverse (l : List Bool) : valBE l.reverse = valLE l := by
  induction l with
  | nil => rfl
  | cons b bs ih =>
    rw [List.reverse_cons, valBE_append_singleton, ih, valLE]
    omega

theorem valBE_bitsBE (n : Nat) : valBE (bitsBE n) = n := by
  rw [bitsBE, valBE_reverse, valLE_bitsLE]

/-!
## The point capability contract

The framework consumes the affine point type only through a point-at-infinity
test and a scalar multiplication driven by a most-significant-bit-first bit
sequence (`item.mul_bits(...).is_zero()` in the source).  We embed that
capability as a record of the two operations.
-/

/-- The point capability contract the framework consumes: a point-at-infinity
test and scalar multiplication by a most-significant-bit-first bit sequence. -/
structure PointEngine (Pt : Type) where
  is_zero : Pt → Bool
  mul_bits : Pt → List Bool → Pt

/-- Modelled from the spec: the Affine Point Engine's bit-driven scalar
multiplication (`GroupAffine::mul_bits` of `short_weierstrass_jacobian`, a
module of this repository not present under `src/`): double-and-add over the
bits, most-significant bit first, starting from the identity.  The point group
is embedded as an additive commutative monoid. -/
def mulBitsAux {Pt : Type} [AddCommMonoid Pt] (p : Pt) : List Bool → Pt → Pt
  | [], res => res
  | b :: bs, res => mulBitsAux p bs (if b then res + res + p else res + res)

/-- Modelled from the spec: `mul_bits` runs double-and-add starting from the
identity element. -/
def mul_bits {Pt : Type} [AddCommMonoid Pt] (p : Pt) (bits : List Bool) : Pt :=
  mulBitsAux p bits 0

theorem mulBitsAux_eq {Pt : Type} [AddCommMonoid Pt] (p : Pt) :
    ∀ (bits : List Bool) (res : Pt),
      mulBitsAux p bits res = 2 ^ bits.length • res + valBE bits • p := by
  intro bits
  induction bits with
  | nil => intro res; simp [mulBitsAux, valBE]
  | cons b bs ih =>
    intro res
    rw [mulBitsAux, ih]
    have h2 : (2 : Nat) ^ (b :: bs).length = 2 ^ bs.length + 2 ^ bs.length := by
      simp [List.length_cons, pow_succ]; ring
    rw [h2, valBE]
    cases b <;>
      (simp [smul_add, add_nsmul, add_smul]; try abel)

theorem mul_bits_bitsBE {Pt : Type} [AddCommMonoid Pt] (p : Pt) (n : Nat) :
    mul_bits p (bitsBE n) = n • p := by
  rw [mul_bits, mulBitsAux_eq, valBE_bitsBE, smul_zero, zero_add]

/-- The point engine obtained from the spec-modelled double-and-add
`mul_bits` and the identity test of the point group. -/
def modelEngine (Pt : Type) [AddCommMonoid Pt] [DecidableEq Pt] : PointEngine Pt :=
  ⟨fun p => decide (p = 0), fun p bits => mul_bits p bits⟩

/-!
## The model parameter traits

Each Rust trait with associated constants becomes a structure whose fields are
the constants; the associated `BaseField` / `ScalarField` types become the type
parameters `F` and `S`, and the scalar field's characteristic is carried
explicitly (`scalarCharacteristic`).  The associated-type linkage between
Twisted-Edwards and Montgomery instances is a type-level relationship in Rust;
it is embedded separately below as `ModelEnv`.
-/

/-- `SWModelParameters`: the short-weierstrass model `y^2 = x^3 + a·x + b`. -/
structure SWModelParameters (F S : Type) where
  scalarCharacteristic : Nat
  COEFF_A : F
  COEFF_B : F
  COFACTOR : List Nat
  COFACTOR_INV : S
  AFFINE_GENERATOR_COEFFS : F × F

/-- `TEModelParameters`: the twisted-edwards model
`a·x^2 + y^2 = 1 + d·x^2·y^2` (its Montgomery associated type is embedded in
`ModelEnv`). -/
structure TEModelParameters (F S : Type) where
  scalarCharacteristic : Nat
  COEFF_A : F
  COEFF_D : F
  COFACTOR : List Nat
  COFACTOR_INV : S
  AFFINE_GENERATOR_COEFFS : F × F

/-- `MontgomeryModelParameters`: the montgomery model
`b·y^2 = x^3 + a·x^2 + x` (its Twisted-Edwards associated type is embedded in
`ModelEnv`). -/
structure MontgomeryModelParameters (F S : Type) where
  scalarCharacteristic : Nat
  COEFF_A : F
  COEFF_B : F

namespace SWModelParameters

variable {F S : Type}

/-- `SWModelParameters::mul_by_a`: copy the element and multiply the copy by
`COEFF_A`. -/
def mul_by_a [Field F] (P : SWModelParameters F S) (elem : F) : F :=
  elem * P.COEFF_A

/-- `SWModelParameters::add_b`: when `COEFF_B` is not zero, copy the element
and add `COEFF_B` to the copy; otherwise return the element unmodified. -/
def add_b [Field F] [DecidableEq F] (P : SWModelParameters F S) (elem : F) : F :=
  if !(decide (P.COEFF_B = 0)) then elem + P.COEFF_B else elem

/-- `SWModelParameters::is_in_correct_subgroup_assuming_on_curve`: multiply the
point by the most-significant-bit-first bit expansion of the scalar field's
characteristic via the point engine's `mul_bits` and test the result for the
point at infinity. -/
def is_in_correct_subgroup_assuming_on_curve {Pt : Type}
    (P : SWModelParameters F S) (engine : PointEngine Pt) (item : Pt) : Bool :=
  engine.is_zero (engine.mul_bits item (bitsBE P.scalarCharacteristic))

end SWModelParameters

namespace TEModelParameters

variable {F S : Type}

/-- `TEModelParameters::mul_by_a`: copy the element and multiply the copy by
`COEFF_A` (the same formula as the short-weierstrass `mul_by_a`). -/
def mul_by_a [Field F] (P : TEModelParameters F S) (elem : F) : F :=
  elem * P.COEFF_A

end TEModelParameters

/-!
## The associated-type linkage

In Rust the Twisted-Edwards / Montgomery linkage is type-level: each
`TEModelParameters` impl names one `MontgomeryModelParameters` type whose
`BaseField` equals its own, and symmetrically (`mod.rs` lines 85 and 109).  We
embed a program's collection of model-instance types as `ModelEnv`: instances
are indices, each instance has a base-field type (a code in `Nat`), and the
two associated-type assignments are the functions `teMont` and `montTE`.  The
trait bounds `MontgomeryModelParameters<BaseField = Self::BaseField>` and
`TEModelParameters<BaseField = Self::BaseField>` are the well-formedness
predicate `ModelEnv.wf` — they are the only constraints the code imposes on
the linkage. -/
structure ModelEnv where
  nTE : Nat
  nMont : Nat
  teBase : Fin nTE → Nat
  montBase : Fin nMont → Nat
  teMont : Fin nTE → Fin nMont
  montTE : Fin nMont → Fin nTE

/-- The constraints the trait bounds enforce on the linkage: each associated
type is an instance of the other trait over the same base field. -/
def ModelEnv.wf (E : ModelEnv) : Prop :=
  (∀ i, E.montBase (E.teMont i) = E.teBase i) ∧
  (∀ j, E.teBase (E.montTE j) = E.montBase j)

instance (E : ModelEnv) : Decidable E.wf := by
  unfold ModelEnv.wf; infer_instance

/-!
## Call-level embeddings

`mul_by_a` and `add_b` receive their field element behind a shared reference
(`elem: &Self::BaseField`).  To talk about the referent after the call we embed
each body as a function from the referent cell's contents to the pair
(returned value, referent cell's contents after the call), translating the
body statement by statement: the bodies copy the referent into a local
(`let mut copy = *elem`), mutate only the local, and never write through the
reference. -/

/-- Call-level embedding of the body of `mul_by_a` (shared by the
short-weierstrass and twisted-edwards models, which have identical bodies). -/
def mul_by_a_call {F : Type} [Field F] (A : F) (cell : F) : F × F :=
  let copy := cell
  let copy := copy * A
  (copy, cell)

/-- Call-level embedding of the body of `add_b` (both branches return without
ever writing through `elem`). -/
def add_b_call {F : Type} [Field F] [DecidableEq F] (B : F) (cell : F) : F × F :=
  if !(decide (B = 0)) then
    let copy := cell
    let copy := copy + B
    (copy, cell)
  else (cell, cell)

/-!
## Concrete toy instances

Small instances over `ZMod 5` / `ZMod 3`, used to instantiate the theorems
below on concrete inputs.
-/

instance : Fact (Nat.Prime 5) := ⟨by norm_num⟩

/-- A toy short-weierstrass parameter set over `ZMod 5` with cofactor limb
sequence `[1]`. -/
def swCofSmall : SWModelParameters (ZMod 5) (ZMod 5) :=
  ⟨7, 1, 2, [1], 1, (0, 0)⟩

/-- The same toy parameter set except for `COFACTOR` and `COFACTOR_INV`. -/
def swCofLarge : SWModelParameters (ZMod 5) (ZMod 5) :=
  ⟨7, 1, 2, [4, 4], 3, (0, 0)⟩

/-- A toy short-weierstrass parameter set with `COEFF_B = 0`. -/
def swZeroB : SWModelParameters (ZMod 5) (ZMod 5) :=
  ⟨7, 1, 0, [1], 1, (0, 0)⟩

/-- A toy twisted-edwards parameter set over `ZMod 5`. -/
def teToy : TEModelParameters (ZMod 5) (ZMod 5) :=
  ⟨7, 1, 3, [1], 1, (0, 0)⟩

/-- A linkage environment with one twisted-edwards and one montgomery
instance, linked to each other over base field `5`. -/
def goodEnv : ModelEnv :=
  ⟨1, 1, fun _ => 5, fun _ => 5, fun _ => 0, fun _ => 0⟩

/-- A linkage environment with two twisted-edwards instances over the same
base field both naming the single montgomery instance, which names the first
of them: every trait bound holds, yet the round trip moves the second
twisted-edwards instance to the first. -/
def badEnv : ModelEnv :=
  ⟨2, 1, fun _ => 0, fun _ => 0, fun _ => 0, fun _ => 0⟩

/-- The (only) twisted-edwards instance of `goodEnv`, as a concrete index. -/
def goodTE : Fin goodEnv.nTE := ⟨0, by decide⟩

/-!
## The claims
-/

/-- C1: for every short-weierstrass model and every point, the default
`is_in_correct_subgroup_assuming_on_curve` returns true if and only if
multiplying the point by the scalar field's characteristic — scalar
multiplication driven by the most-significant-bit-first big-endian bit
expansion of the characteristic, delegated to the point engine's double-and-add
`mul_bits` — yields the identity (point at infinity). -/
theorem is_in_correct_subgroup_iff_char_smul_eq_zero
    {F S Pt : Type} [AddCommMonoid Pt] [DecidableEq Pt]
    (P : SWModelParameters F S) (item : Pt) :
    P.is_in_correct_subgroup_assuming_on_curve (modelEngine Pt) item = true ↔
      P.scalarCharacteristic • item = 0 := by
  simp [SWModelParameters.is_in_correct_subgroup_assuming_on_curve, modelEngine,
    mul_bits_bitsBE]

/-- C2: `add_b e` equals `e + COEFF_B` for every value of `COEFF_B`, and in
particular equals `e` unchanged when `COEFF_B` is the additive identity (the
short-circuit branch). -/
theorem add_b_eq_add_coeff_b {F S : Type} [Field F] [DecidableEq F]
    (P : SWModelParameters F S) (e : F) :
    P.add_b e = e + P.COEFF_B ∧ (P.COEFF_B = 0 → P.add_b e = e) := by
  unfold SWModelParameters.add_b
  by_cases h : P.COEFF_B = 0 <;> simp [h]

/-- Witness for C2: concrete evaluations, on the short-circuit branch
(`COEFF_B = 0`) and on the general branch. -/
theorem add_b_eq_add_coeff_b_witness :
    swZeroB.add_b (3 : ZMod 5) = 3 ∧ swCofSmall.add_b (3 : ZMod 5) = 3 + 2 :=
  ⟨(add_b_eq_add_coeff_b swZeroB 3).2 rfl, (add_b_eq_add_coeff_b swCofSmall 3).1⟩

/-- C3: `mul_by_a e` equals `e * COEFF_A` exactly, for the short-weierstrass
and the twisted-edwards model alike, and the two agree whenever their `a`
coefficients do. -/
theorem mul_by_a_eq_mul_coeff_a {F S : Type} [Field F]
    (P : SWModelParameters F S) (Q : TEModelParameters F S) (e : F) :
    P.mul_by_a e = e * P.COEFF_A ∧ Q.mul_by_a e = e * Q.COEFF_A ∧
      (P.COEFF_A = Q.COEFF_A → P.mul_by_a e = Q.mul_by_a e) := by
  refine ⟨rfl, rfl, fun h => ?_⟩
  simp [SWModelParameters.mul_by_a, TEModelParameters.mul_by_a, h]

/-- Witness for C3: concrete evaluation of both models' `mul_by_a` at the same
`a` coefficient. -/
theorem mul_by_a_eq_mul_coeff_a_witness :
    swCofSmall.mul_by_a (3 : ZMod 5) = 3 * swCofSmall.COEFF_A ∧
      teToy.mul_by_a (3 : ZMod 5) = 3 * teToy.COEFF_A ∧
      swCofSmall.mul_by_a (3 : ZMod 5) = teToy.mul_by_a 3 :=
  ⟨(mul_by_a_eq_mul_coeff_a swCofSmall teToy 3).1,
    (mul_by_a_eq_mul_coeff_a swCofSmall teToy 3).2.1,
    (mul_by_a_eq_mul_coeff_a swCofSmall teToy 3).2.2 rfl⟩

/-- C4 counterexample: a linkage environment satisfying every constraint the
trait bounds impose (`ModelEnv.wf`) in which the montgomery instance
associated to a twisted-edwards instance links back to a different
twisted-edwards instance: the code does not force the round trip to be the
identity. -/
theorem linkage_roundtrip_not_forced :
    badEnv.wf ∧ ¬ (∀ i, badEnv.montTE (badEnv.teMont i) = i) := by decide

/-- C4 amended: for every linkage satisfying the trait bounds, the
twisted-edwards instance reached by the round trip lives over the same base
field as the starting instance (base-field agreement is all the code
enforces; the instance itself need not be the starting one). -/
theorem linkage_roundtrip_same_base_field (E : ModelEnv) (h : E.wf)
    (i : Fin E.nTE) : E.teBase (E.montTE (E.teMont i)) = E.teBase i := by
  rw [h.2, h.1]

/-- Witness for the amended C4: the round trip preserves the base field in the
concrete environment `goodEnv`. -/
theorem linkage_roundtrip_same_base_field_witness :
    goodEnv.wf ∧
      goodEnv.teBase (goodEnv.montTE (goodEnv.teMont goodTE)) = goodEnv.teBase goodTE :=
  ⟨by decide, linkage_roundtrip_same_base_field goodEnv (by decide) goodTE⟩

/-- C5: the default subgroup verifier returns true on the identity / point at
infinity. -/
theorem subgroup_check_accepts_identity {F S Pt : Type} [AddCommMonoid Pt]
    [DecidableEq Pt] (P : SWModelParameters F S) :
    P.is_in_correct_subgroup_assuming_on_curve (modelEngine Pt) (0 : Pt) = true := by
  simp [SWModelParameters.is_in_correct_subgroup_assuming_on_curve, modelEngine,
    mul_bits_bitsBE]

/-- C6: the verdict of the default subgroup verifier depends only on the input
point and the scalar field's characteristic: two parameter sets agreeing on
everything except `COFACTOR` and `COFACTOR_INV` give the same result on every
point. -/
theorem subgroup_check_ignores_cofactor {F S Pt : Type}
    (P₁ P₂ : SWModelParameters F S) (engine : PointEngine Pt) (item : Pt)
    (hchar : P₁.scalarCharacteristic = P₂.scalarCharacteristic)
    (_hA : P₁.COEFF_A = P₂.COEFF_A) (_hB : P₁.COEFF_B = P₂.COEFF_B)
    (_hG : P₁.AFFINE_GENERATOR_COEFFS = P₂.AFFINE_GENERATOR_COEFFS) :
    P₁.is_in_correct_subgroup_assuming_on_curve engine item =
      P₂.is_in_correct_subgroup_assuming_on_curve engine item := by
  unfold SWModelParameters.is_in_correct_subgroup_assuming_on_curve
  rw [hchar]

/-- Witness for C6: two concrete parameter sets differing in `COFACTOR` and
`COFACTOR_INV` give the same verdict on a concrete point. -/
theorem subgroup_check_ignores_cofactor_witness :
    swCofSmall.COFACTOR ≠ swCofLarge.COFACTOR ∧
      swCofSmall.COFACTOR_INV ≠ swCofLarge.COFACTOR_INV ∧
      swCofSmall.is_in_correct_subgroup_assuming_on_curve (modelEngine (ZMod 3)) 1 =
        swCofLarge.is_in_correct_subgroup_assuming_on_curve (modelEngine (ZMod 3)) 1 :=
  ⟨by decide, by decide,
    subgroup_check_ignores_cofactor swCofSmall swCofLarge _ 1 rfl rfl rfl rfl⟩

/-- C7: every twisted-edwards instance names exactly one montgomery instance
over the same base field, and every montgomery instance names exactly one
twisted-edwards instance over the same base field. -/
theorem linkage_unique_same_base_field (E : ModelEnv) (h : E.wf) :
    (∀ i, ∃! j, E.teMont i = j ∧ E.montBase j = E.teBase i) ∧
      (∀ j, ∃! i, E.montTE j = i ∧ E.teBase i = E.montBase j) := by
  constructor
  · intro i
    exact ⟨E.teMont i, ⟨rfl, h.1 i⟩, fun y hy => hy.1.symm⟩
  · intro j
    exact ⟨E.montTE j, ⟨rfl, h.2 j⟩, fun y hy => hy.1.symm⟩

/-- Witness for C7: the unique-linkage property instantiated on the concrete
environment `goodEnv`. -/
theorem linkage_unique_same_base_field_witness :
    goodEnv.wf ∧
      (∃! j, goodEnv.teMont goodTE = j ∧ goodEnv.montBase j = goodEnv.teBase goodTE) :=
  ⟨by decide, (linkage_unique_same_base_field goodEnv (by decide)).1 goodTE⟩

/-- C8: every operation of the layer is a deterministic pure function: equal
inputs give equal outputs (the embedding is purely functional, as are the
Rust default bodies, which read and write no state beyond their arguments and
the associated constants). -/
theorem layer_deterministic {F S Pt : Type} [Field F] [DecidableEq F]
    (P : SWModelParameters F S) (Q : TEModelParameters F S)
    (engine : PointEngine Pt) (e e' : F) (x x' : Pt)
    (he : e = e') (hx : x = x') :
    P.mul_by_a e = P.mul_by_a e' ∧ P.add_b e = P.add_b e' ∧
      Q.mul_by_a e = Q.mul_by_a e' ∧
      P.is_in_correct_subgroup_assuming_on_curve engine x =
        P.is_in_correct_subgroup_assuming_on_curve engine x' := by
  subst he; subst hx; exact ⟨rfl, rfl, rfl, rfl⟩

/-- Witness for C8: determinism instantiated on concrete equal inputs. -/
theorem layer_deterministic_witness :
    swCofSmall.mul_by_a (2 : ZMod 5) = swCofSmall.mul_by_a 2 ∧
      swCofSmall.add_b (2 : ZMod 5) = swCofSmall.add_b 2 ∧
      teToy.mul_by_a (2 : ZMod 5) = teToy.mul_by_a 2 ∧
      swCofSmall.is_in_correct_subgroup_assuming_on_curve (modelEngine (ZMod 3)) 1 =
        swCofSmall.is_in_correct_subgroup_assuming_on_curve (modelEngine (ZMod 3)) 1 :=
  layer_deterministic swCofSmall teToy (modelEngine (ZMod 3)) 2 2 1 1 rfl rfl

/-- C9: every operation of the layer is total over its input domain: both
coefficient operators return a field element and the subgroup verifier
returns one of the two booleans, with no error value or failure branch. -/
theorem layer_total {F S Pt : Type} [Field F] [DecidableEq F]
    (P : SWModelParameters F S) (Q : TEModelParameters F S)
    (engine : PointEngine Pt) (e : F) (item : Pt) :
    (∃ r, P.mul_by_a e = r) ∧ (∃ r, P.add_b e = r) ∧ (∃ r, Q.mul_by_a e = r) ∧
      (P.is_in_correct_subgroup_assuming_on_curve engine item = true ∨
        P.is_in_correct_subgroup_assuming_on_curve engine item = false) := by
  refine ⟨⟨_, rfl⟩, ⟨_, rfl⟩, ⟨_, rfl⟩, ?_⟩
  cases P.is_in_correct_subgroup_assuming_on_curve engine item <;> simp

/-- C10: in the call-level embedding — the referent of the `elem` reference
passed as explicit state — `mul_by_a` (short-weierstrass and twisted-edwards)
and `add_b` leave the argument cell unchanged and return the same value as the
functional embeddings: the bodies operate on a local copy only. -/
theorem coefficient_ops_leave_argument_unchanged {F S : Type}
    [Field F] [DecidableEq F]
    (P : SWModelParameters F S) (Q : TEModelParameters F S) (cell : F) :
    (mul_by_a_call P.COEFF_A cell).2 = cell ∧
      (add_b_call P.COEFF_B cell).2 = cell ∧
      (mul_by_a_call P.COEFF_A cell).1 = P.mul_by_a cell ∧
      (add_b_call P.COEFF_B cell).1 = P.add_b cell ∧
      (mul_by_a_call Q.COEFF_A cell).1 = Q.mul_by_a cell := by
  unfold mul_by_a_call add_b_call SWModelParameters.mul_by_a
    SWModelParameters.add_b TEModelParameters.mul_by_a
  by_cases h : P.COEFF_B = 0 <;> simp [h]

